import Mathlib

/-!
Verification of the Neo4j Go REST client (`neo4j.go`) against its
natural-language specification.  The Go functions are shallowly embedded as
executable Lean definitions; HTTP is modelled by an oracle function, the JSON
layer by an inductive value type (the `encoding/json` parser itself is Go
standard library, so responses are modelled at the parsed-value level).
-/

/-- JSON values, the result of parsing a JSON text.  Numbers are irrelevant to
every claim (the generic decoder drops them), so they are carried opaquely. -/
inductive JValue : Type where
  | str (s : String)
  | num (n : Int)
  | bool (b : Bool)
  | null
  | arr (elems : List JValue)
  | obj (fields : List (String × JValue))

/-- The `NeoTemplate` from neo4j.go (field `Type` is renamed `RelType`: `Type` is a
Lean keyword).  Go zero values become the field defaults. -/
structure NeoTemplate : Type where
  ID : Nat := 0
  Relationships : String := ""
  RelationshipsOut : String := ""
  RelationshipsIn : String := ""
  RelationshipsAll : String := ""
  RelationshipsCreate : String := ""
  Data : List (String × JValue) := []
  Traverse : String := ""
  Property : String := ""
  Properties : String := ""
  Self : String := ""
  Extensions : List (String × JValue) := []
  Start : String := ""
  End : String := ""
  RelType : String := ""
  Indexed : String := ""
  Length : String := ""
  Nodes : List JValue := []
  TRelationships : List JValue := []

/-- The `strconv.ParseUint(s, 10, 0)`: a nonempty all-digit decimal string that
fits in a 64-bit unsigned integer; anything else is an error (`none`). -/
def parseUintGo (s : String) : Option Nat :=
  if s.length = 0 then none
  else if s.data.all (fun c => decide ('0' ≤ c) && decide (c ≤ '9')) then
    let n := s.data.foldl (fun acc c => acc * 10 + (c.toNat - Char.toNat '0')) 0
    if n < 2 ^ 64 then some n else none
  else none

/-- Helper for `splitSlash`: accumulate the current segment (reversed). -/
def splitSlashAux : List Char → List Char → List String
  | acc, [] => [String.mk acc.reverse]
  | acc, c :: rest =>
    if c = '/' then String.mk acc.reverse :: splitSlashAux [] rest
    else splitSlashAux (c :: acc) rest

/-- The `strings.Split(s, "/")`: the `/`-delimited segments of `s`, empty segments
included (`""` yields `[""]`, just as in Go). -/
def splitSlash (s : String) : List String :=
  splitSlashAux [] s.data

/-- The string-valued cases of the key switch in `unmarshalNode`
(neo4j.go lines 694-728).  The `"self"` case additionally splits the string on
`/` and parses the last segment as the ID; a parse failure aborts the decode. -/
def applyStringField (node : NeoTemplate) (k : String) (s : String) :
    Except String NeoTemplate :=
  if k = "self" then
    let selfSlice := splitSlash s
    match parseUintGo (selfSlice.getLastD ("")) with
    | none => Except.error ("invalid syntax in self id")
    | some id => Except.ok { node with Self := s, ID := id }
  else if k = "traverse" then Except.ok { node with Traverse := s }
  else if k = "property" then Except.ok { node with Property := s }
  else if k = "properties" then Except.ok { node with Properties := s }
  else if k = "outgoing_relationships" then Except.ok { node with RelationshipsOut := s }
  else if k = "incoming_relationships" then Except.ok { node with RelationshipsIn := s }
  else if k = "all_relationships" then Except.ok { node with RelationshipsAll := s }
  else if k = "create_relationship" then Except.ok { node with RelationshipsCreate := s }
  else if k = "start" then Except.ok { node with Start := s }
  else if k = "end" then Except.ok { node with End := s }
  else if k = "type" then Except.ok { node with RelType := s }
  else if k = "length" then Except.ok { node with Length := s }
  else if k = "indexed" then Except.ok { node with Indexed := s }
  else Except.ok node

/-- The per-key loop body of `unmarshalNode` (neo4j.go lines 664-732): an
object value is routed to `Data`/`Extensions`, an array value to
`Nodes`/`TRelationships`, a string value through `applyStringField`; numbers,
booleans and null match none of the three type assertions and are dropped. -/
def unmarshalNodeLoop : NeoTemplate → List (String × JValue) → Except String NeoTemplate
  | node, [] => Except.ok node
  | node, (k, v) :: rest =>
    match v with
    | JValue.obj fs =>
        unmarshalNodeLoop
          (if k = "data" then { node with Data := fs }
           else if k = "extensions" then { node with Extensions := fs }
           else node) rest
    | JValue.arr xs =>
        unmarshalNodeLoop
          (if k = "nodes" then { node with Nodes := xs }
           else if k = "relationships" then { node with TRelationships := xs }
           else node) rest
    | JValue.str s =>
        match applyStringField node k s with
        | Except.error e => Except.error e
        | Except.ok node2 => unmarshalNodeLoop node2 rest
    | _ => unmarshalNodeLoop node rest

/-- The `unmarshalNode` (neo4j.go lines 658-734): decode one JSON object into a
fresh `NeoTemplate` (Go's `new(NeoTemplate)` zero value). -/
def unmarshalNode (template : List (String × JValue)) : Except String NeoTemplate :=
  unmarshalNodeLoop {} template

/-- A response body after the `encoding/json` parse: either not valid JSON at
all, or some JSON value. -/
inductive ParsedInput : Type where
  | malformed
  | value (v : JValue)

/-- The `json.Unmarshal(b, &templateNode)` with `templateNode : map[string]interface{}`
succeeds exactly on a JSON object (or JSON `null`, which leaves the map nil). -/
def goUnmarshalMap : ParsedInput → Option (List (String × JValue))
  | ParsedInput.value (JValue.obj fs) => some fs
  | ParsedInput.value JValue.null => some []
  | _ => none

/-- One element of the `[]map[string]interface{}` unmarshal: each array element
must itself be an object (or `null`, giving a nil map). -/
def goElemMap : JValue → Option (List (String × JValue))
  | JValue.obj fs => some fs
  | JValue.null => some []
  | _ => none

/-- Unmarshal every array element into a map, element by element. -/
def goElemMaps : List JValue → Option (List (List (String × JValue)))
  | [] => some []
  | v :: rest =>
    match goElemMap v with
    | none => none
    | some fs =>
      match goElemMaps rest with
      | none => none
      | some fss => some (fs :: fss)

/-- The `json.Unmarshal(b, &templateSet)` with `templateSet : []map[string]interface{}`:
succeeds on an array whose elements are all objects (or on `null`). -/
def goUnmarshalMapArray : ParsedInput → Option (List (List (String × JValue)))
  | ParsedInput.value (JValue.arr xs) => goElemMaps xs
  | ParsedInput.value JValue.null => some []
  | _ => none

/-- The `for _, v := range templateSet` loop of `unmarshal` (neo4j.go lines
751-757): decode each object in order with sequential indices, aborting the
whole decode on the first failure. -/
def unmarshalSetLoop : List (List (String × JValue)) → Except String (List NeoTemplate)
  | [] => Except.ok []
  | v :: rest =>
    match unmarshalNode v with
    | Except.error e => Except.error e
    | Except.ok data =>
      match unmarshalSetLoop rest with
      | Except.error e => Except.error e
      | Except.ok ds => Except.ok (data :: ds)

/-- The `unmarshal` (neo4j.go lines 739-766).  The Go result `map[int]*NeoTemplate`
only ever receives the sequential keys `0 .. n-1`, so it is modelled as a list
whose position is the index. -/
def unmarshal (inp : ParsedInput) : Except String (List NeoTemplate) :=
  match goUnmarshalMap inp with
  | some templateNode =>
    match unmarshalNode templateNode with
    | Except.error e => Except.error e
    | Except.ok template => Except.ok [template]
  | none =>
    match goUnmarshalMapArray inp with
    | none => Except.error ("invalid json")
    | some templateSet => unmarshalSetLoop templateSet

/-- The `Except` success test (Go: "err == nil"). -/
def isOkE {ε α : Type} : Except ε α → Bool
  | Except.ok _ => true
  | Except.error _ => false

/-! ## Status classifier (neo4j.go lines 41-44, 767-782) and the per-operation
error tables, one per endpooint function, copied from each function's
`errorList` literal. -/

/-- Association-list model of Go's `map[int]error`: lookup by key. -/
def mapLookup (l : List (Nat × String)) (k : Nat) : Option String :=
  (l.find? (fun p => p.1 == k)).map Prod.snd

/-- Association-list model of Go's `m[k] = v` map assignment. -/
def mapInsert (l : List (Nat × String)) (k : Nat) (v : String) : List (Nat × String) :=
  (k, v) :: l.filter (fun p => p.1 != k)

/-- The `Error` struct from neo4j.go: an optional error table (`nil` map
modelled as `none`) and the status code to classify. -/
structure Error : Type where
  List : Option (List (Nat × String))
  Code : Nat

/-- The `Error.check` (neo4j.go lines 775-782): the tabulated error for the code,
if any; `nil` otherwise. -/
def Error.check (e : Error) : Option String :=
  match e.List with
  | some l => mapLookup l e.Code
  | none => none

/-- The `NewError` (neo4j.go lines 767-773): add the always-present 500 entry to a
non-nil table, then classify the client's last status code. -/
def NewError (errorList : Option (List (Nat × String))) (statusCode : Nat) : Option String :=
  match errorList with
  | some l => Error.check { List := some (mapInsert l 500 ("Fatal Error 500.")), Code := statusCode }
  | none => Error.check { List := none, Code := statusCode }

def errorList_GetProperty : List (Nat × String) :=
  [(404, "Node or Property not found."), (204, "No properties found.")]

def errorList_GetProperties : List (Nat × String) :=
  [(404, "Node or Property not found."), (204, "No properties found.")]

def errorList_SetProperty : List (Nat × String) :=
  [(404, "Node not found."), (400, "Invalid data sent.")]

def errorList_CreateProperty : List (Nat × String) :=
  [(404, "Node or Property not found."), (400, "Invalid data sent.")]

def errorList_DelProperty : List (Nat × String) :=
  [(404, "Node or Property not found.")]

def errorList_DelNode : List (Nat × String) :=
  [(404, "Node not found."), (409, "Unable to delete node. May still have relationships.")]

def errorList_CreateNode : List (Nat × String) :=
  [(400, "Invalid data sent.")]

def errorList_GetNode : List (Nat × String) :=
  [(404, "Node not found.")]

def errorList_GetRelationshipsOnNode : List (Nat × String) :=
  [(404, "Node not found.")]

def errorList_SetRelationship : List (Nat × String) :=
  [(404, "Relationship not found."), (400, "Invalid data sent.")]

def errorList_DelRelationship : List (Nat × String) :=
  [(404, "Relationship not found.")]

def errorList_CreateRelationship : List (Nat × String) :=
  [(404, "Node or \x27to\x27 node not found."), (400, "Invalid data sent.")]

def errorList_SearchIdx : List (Nat × String) :=
  [(400, "Invalid data sent.")]

def errorList_CreateIdx : List (Nat × String) :=
  [(400, "Invalid data sent.")]

def errorList_Traverse : List (Nat × String) :=
  [(404, "Node not found.")]

def errorList_TraversePath : List (Nat × String) :=
  [(404, "No path found using current algorithm and parameters")]

/-- Every operation tag of the library together with its error table. -/
def allErrorTables : List (String × List (Nat × String)) :=
  [("GetProperty", errorList_GetProperty),
   ("GetProperties", errorList_GetProperties),
   ("SetProperty", errorList_SetProperty),
   ("CreateProperty", errorList_CreateProperty),
   ("DelProperty", errorList_DelProperty),
   ("DelNode", errorList_DelNode),
   ("CreateNode", errorList_CreateNode),
   ("GetNode", errorList_GetNode),
   ("GetRelationshipsOnNode", errorList_GetRelationshipsOnNode),
   ("SetRelationship", errorList_SetRelationship),
   ("DelRelationship", errorList_DelRelationship),
   ("CreateRelationship", errorList_CreateRelationship),
   ("SearchIdx", errorList_SearchIdx),
   ("CreateIdx", errorList_CreateIdx),
   ("Traverse", errorList_Traverse),
   ("TraversePath", errorList_TraversePath)]

/-! ## String escaper (neo4j.go lines 68, 547-592) -/

/-- The `escapedChars` constant from neo4j.go. -/
def escapedChars : String := "&\x27<>\"*[]:% "

/-- The `escapedChars` as a character list (same characters, same order). -/
def escapedCharsList : List Char :=
  ['&', Char.ofNat 39, '<', '>', '"', '*', '[', ']', ':', '%', ' ']

/-- The `strings.IndexAny(s, chars)`: index of the first character of `s` that is
in `chars` (`none` models Go's `-1`). -/
def findIdxA (p : Char → Bool) : List Char → Option Nat
  | [] => none
  | c :: rest => if p c then some 0 else (findIdxA p rest).map (· + 1)

def indexAny (s : List Char) (chars : List Char) : Option Nat :=
  findIdxA (fun c => chars.contains c) s

/-- The escape switch inside `escape` (neo4j.go lines 561-586); the `default`
branch aborts the program, modelled as `none`. -/
def escCode (c : Char) : Option String :=
  if c = '%' then some ("%25")
  else if c = '&' then some ("&amp;")
  else if c = Char.ofNat 39 then some ("&apos;")
  else if c = '<' then some ("&lt;")
  else if c = '>' then some ("&gt;")
  else if c = '"' then some ("&quot;")
  else if c = ' ' then some ("%20")
  else if c = '*' then some ("%2A")
  else if c = ':' then some ("%3A")
  else if c = '[' then some ("%5B")
  else if c = ']' then some ("%5D")
  else none

/-- The loop of `escape` (neo4j.go lines 556-592): find the next reserved
character, copy the clean prefix, emit the escape, continue on the remainder;
when no reserved character remains, copy the tail. -/
def escapeLoop (buf : List Char) (s : List Char) : Option (List Char) :=
  match indexAny s escapedCharsList with
  | none => some (buf ++ s)
  | some i =>
    match hdrop : s.drop i with
    | [] => none
    | c :: rest =>
      match escCode c with
      | none => none
      | some esc => escapeLoop (buf ++ s.take i ++ esc.data) rest
termination_by s.length
decreasing_by
  have hlen := congrArg List.length hdrop
  simp [List.length_drop] at hlen
  omega

/-- The `EscapeString` (neo4j.go lines 547-554): fast path when no reserved
character occurs, otherwise run the escape loop on an empty buffer. -/
def EscapeString (s : String) : Option String :=
  if (indexAny s.data escapedCharsList).isNone then some s
  else (escapeLoop [] s.data).map String.mk

/-! ## Client state, request dispatch and the endpoint operations needed by the
claims (neo4j.go lines 36-40, 603-655, 266-284, 344-358, 134-199).  The HTTP
transport is an oracle from (verb, url, body-sent) to an optional response
(parsed body, status code); `none` is a transport failure.  Every dispatched
request is also returned in a log so that "which requests were issued" is a
provable statement. -/

/-- The `Neo4j` client struct (neo4j.go lines 36-40). -/
structure Neo4j : Type where
  Method : String
  StatusCode : Nat
  URL : String

def Oracle : Type := String → String → String → Option (ParsedInput × Nat)

/-- One issued HTTP request: verb, url, body sent. -/
abbrev Req : Type := String × String × String

/-- The `strings.ToLower` restricted to ASCII (the verbs used are ASCII). -/
def toLowerGo (s : String) : String :=
  String.mk (s.data.map Char.toLower)

/-- The verb switch of `send` (neo4j.go lines 613-640): unrecognized or empty
verbs fall through to `get`. -/
def normalizeVerb (m : String) : String :=
  let l := toLowerGo m
  if l = "delete" then ("delete")
  else if l = "post" then ("post")
  else if l = "put" then ("put")
  else ("get")

/-- The `send` (neo4j.go lines 603-655): default the URL when empty, dispatch with
the client's current verb, and on success record the response status code on
the client.  A transport failure leaves the status code unchanged. -/
def send (oracle : Oracle) (st : Neo4j) (url0 data : String) :
    Neo4j × List Req × Except String ParsedInput :=
  let url := if url0.length < 1 then st.URL ++ "node" else url0
  let verb := normalizeVerb st.Method
  match oracle verb url data with
  | none => (st, [(verb, url, data)], Except.error ("transport error"))
  | some (body, status) =>
    ({ st with StatusCode := status }, [(verb, url, data)], Except.ok body)

/-- The `GetNode` (neo4j.go lines 266-284).  Go's `template[0]` is a nil pointer
when the decoded set is empty, hence the `Option NeoTemplate`. -/
def GetNode (oracle : Oracle) (st0 : Neo4j) (id : Nat) :
    Neo4j × List Req × (Option NeoTemplate × Option String) :=
  if id < 1 then (st0, [], (none, some ("Invalid node id specified.")))
  else
    let st : Neo4j := { st0 with Method := "get" }
    let url := st.URL ++ "/node/"
    match send oracle st (url ++ toString id) ("") with
    | (st1, reqs, Except.error e) => (st1, reqs, (none, some e))
    | (st1, reqs, Except.ok body) =>
      match unmarshal body with
      | Except.error e => (st1, reqs, (none, some e))
      | Except.ok templates =>
        (st1, reqs, (templates.get? 0, NewError (some errorList_GetNode) st1.StatusCode))

/-- The `for _, i := range id` loop of `DelRelationship` (neo4j.go lines
347-353): delete each relationship in turn, stopping at the first transport
failure. -/
def delRelLoop (oracle : Oracle) (url : String) :
    Neo4j → List Nat → Neo4j × List Req × Option String
  | st, [] => (st, [], none)
  | st, i :: rest =>
    match send oracle st (url ++ toString i) ("") with
    | (st1, reqs, Except.error e) => (st1, reqs, some e)
    | (st1, reqs, Except.ok _) =>
      match delRelLoop oracle url st1 rest with
      | (st2, reqs2, res) => (st2, reqs ++ reqs2, res)

/-- The `DelRelationship` (neo4j.go lines 344-358). -/
def DelRelationship (oracle : Oracle) (st0 : Neo4j) (ids : List Nat) :
    Neo4j × List Req × Option String :=
  let st : Neo4j := { st0 with Method := "delete" }
  let url := st.URL ++ "/relationship/"
  match delRelLoop oracle url st ids with
  | (st1, reqs, some e) => (st1, reqs, some e)
  | (st1, reqs, none) =>
    (st1, reqs, NewError (some errorList_DelRelationship) st1.StatusCode)

/-- The Unicode White_Space code points, exactly Go's `unicode.IsSpace`. -/
def isSpaceGo (c : Char) : Bool :=
  let n := c.toNat
  (0x9 ≤ n && n ≤ 0xD) || n == 0x20 || n == 0x85 || n == 0xA0 || n == 0x1680 ||
  (0x2000 ≤ n && n ≤ 0x200A) || n == 0x2028 || n == 0x2029 || n == 0x202F ||
  n == 0x205F || n == 0x3000

/-- The `strings.TrimSpace`: drop leading and trailing white space. -/
def trimSpace (s : String) : String :=
  String.mk (((s.data.dropWhile isSpaceGo).reverse.dropWhile isSpaceGo).reverse)

def hexDigit (n : Nat) : Char :=
  if n < 10 then Char.ofNat (Char.toNat '0' + n) else Char.ofNat (Char.toNat 'a' + n - 10)

def hexByte (n : Nat) : String :=
  String.mk [hexDigit (n / 16 % 16), hexDigit (n % 16)]

/-- The `strconv.Quote` on one character: the escapes relevant to Go string quoting
(quotes, backslash, the named control escapes, `\x` for the remaining control
bytes; printable characters pass through unchanged). -/
def quoteGoChar (c : Char) : List Char :=
  if c = '"' then ['\\', '"']
  else if c = '\\' then ['\\', '\\']
  else if c = Char.ofNat 7 then ['\\', 'a']
  else if c = Char.ofNat 8 then ['\\', 'b']
  else if c = Char.ofNat 9 then ['\\', 't']
  else if c = Char.ofNat 10 then ['\\', 'n']
  else if c = Char.ofNat 11 then ['\\', 'v']
  else if c = Char.ofNat 12 then ['\\', 'f']
  else if c = Char.ofNat 13 then ['\\', 'r']
  else if c.toNat < 0x20 || c.toNat == 0x7F then ('\\' :: 'x' :: (hexByte c.toNat).data)
  else [c]

/-- The `strconv.Quote(s)`: wrap in double quotes, escaping the interior. -/
def quoteGo (s : String) : String :=
  "\"" ++ String.mk ((s.data.map quoteGoChar).flatten) ++ "\""

/-- The `encoding/json` string escaping on one character (quotes, backslash,
control bytes, and the HTML-safe `\u` escapes for `<`, `>`, `&`). -/
def jsonEscapeChar (c : Char) : List Char :=
  if c = '"' then ['\\', '"']
  else if c = '\\' then ['\\', '\\']
  else if c = Char.ofNat 10 then ['\\', 'n']
  else if c = Char.ofNat 13 then ['\\', 'r']
  else if c = Char.ofNat 9 then ['\\', 't']
  else if c = '<' then ('\\' :: 'u' :: "003c".data)
  else if c = '>' then ('\\' :: 'u' :: "003e".data)
  else if c = '&' then ('\\' :: 'u' :: "0026".data)
  else if c.toNat < 0x20 then ('\\' :: 'u' :: '0' :: '0' :: (hexByte c.toNat).data)
  else [c]

def jsonQuote (s : String) : String :=
  "\"" ++ String.mk ((s.data.map jsonEscapeChar).flatten) ++ "\""

/-- Insertion into a key-sorted association list. -/
def insertSorted (p : String × String) : List (String × String) → List (String × String)
  | [] => [p]
  | q :: rest => if p.1 ≤ q.1 then p :: q :: rest else q :: insertSorted p rest

/-- Sort by key, as `encoding/json` does before serializing a map. -/
def sortByKey (l : List (String × String)) : List (String × String) :=
  l.foldr insertSorted []

/-- The `json.Marshal` of a `map[string]string`: a JSON object literal with the
keys in sorted order, keys and values JSON-quoted. -/
def marshalStringMap (data : List (String × String)) : String :=
  "\x7b" ++
    String.intercalate (",") ((sortByKey data).map (fun kv => jsonQuote kv.1 ++ ":" ++ jsonQuote kv.2)) ++
  "\x7d"

/-- The merge-mode (`replace == false`) loop of `SetProperty`/`CreateProperty`
(neo4j.go lines 150-156 and 187-193): for each key, trim white space from the
key, and send the double-quoted value to the per-key property URL. -/
def setPropLoop (oracle : Oracle) (propUrl : String) :
    Neo4j → List (String × String) → Neo4j × List Req × Option String
  | st, [] => (st, [], none)
  | st, (k, v) :: rest =>
    let k2 := trimSpace k
    match send oracle st (propUrl ++ "/" ++ k2) (quoteGo v) with
    | (st1, reqs, Except.error e) => (st1, reqs, some e)
    | (st1, reqs, Except.ok _) =>
      match setPropLoop oracle propUrl st1 rest with
      | (st2, reqs2, res) => (st2, reqs ++ reqs2, res)

/-- The `SetProperty` (neo4j.go lines 134-166): resolve the node, then either
replace the whole property set with one request, or merge key by key. -/
def SetProperty (oracle : Oracle) (st0 : Neo4j) (id : Nat)
    (data : List (String × String)) (replace : Bool) :
    Neo4j × List Req × Option String :=
  match GetNode oracle st0 id with
  | (st1, reqs1, (_, some e)) => (st1, reqs1, some e)
  | (st1, reqs1, (none, none)) => (st1, reqs1, some ("nil pointer dereference"))
  | (st1, reqs1, (some node, none)) =>
    let st : Neo4j := { st1 with Method := "put" }
    let s := marshalStringMap data
    if replace then
      match send oracle st node.Properties s with
      | (st2, reqs2, Except.error e) => (st2, reqs1 ++ reqs2, some e)
      | (st2, reqs2, Except.ok _) =>
        (st2, reqs1 ++ reqs2, NewError (some errorList_SetProperty) st2.StatusCode)
    else
      match setPropLoop oracle node.Properties st data with
      | (st2, reqs2, some e) => (st2, reqs1 ++ reqs2, some e)
      | (st2, reqs2, none) =>
        (st2, reqs1 ++ reqs2, NewError (some errorList_SetProperty) st2.StatusCode)

/-- The `CreateProperty` (neo4j.go lines 171-199): identical flow to `SetProperty`
up to its error table. -/
def CreateProperty (oracle : Oracle) (st0 : Neo4j) (id : Nat)
    (data : List (String × String)) (replace : Bool) :
    Neo4j × List Req × Option String :=
  match GetNode oracle st0 id with
  | (st1, reqs1, (_, some e)) => (st1, reqs1, some e)
  | (st1, reqs1, (none, none)) => (st1, reqs1, some ("nil pointer dereference"))
  | (st1, reqs1, (some node, none)) =>
    let st : Neo4j := { st1 with Method := "put" }
    let s := marshalStringMap data
    if replace then
      match send oracle st node.Properties s with
      | (st2, reqs2, Except.error e) => (st2, reqs1 ++ reqs2, some e)
      | (st2, reqs2, Except.ok _) =>
        (st2, reqs1 ++ reqs2, NewError (some errorList_CreateProperty) st2.StatusCode)
    else
      match setPropLoop oracle node.Properties st data with
      | (st2, reqs2, some e) => (st2, reqs1 ++ reqs2, some e)
      | (st2, reqs2, none) =>
        (st2, reqs1 ++ reqs2, NewError (some errorList_CreateProperty) st2.StatusCode)

/-- A concrete transport for witnesses: every request gets status 200 and a
small node object (self link `a/5`, properties link `p`). -/
def witOracle : Oracle := fun _ _ _ =>
  some (ParsedInput.value (JValue.obj
    [("self", JValue.str ("a/5")), ("properties", JValue.str ("p"))]), 200)

/-- A concrete client for witnesses. -/
def witClient : Neo4j := { Method := "", StatusCode := 0, URL := "u" }

/-- The node `witOracle` serves. -/
def witNode : NeoTemplate := { ID := 5, Self := "a/5", Properties := "p" }
/-- Sanity check: the reserved character list is exactly the characters of
the `escapedChars` constant, in order. -/
theorem escapedCharsList_eq : escapedCharsList = escapedChars.data := rfl

/-- Claim C4: for every operation tag's error table, status code 200 and 201
classify as success (no error) and status code 500 classifies as the generic
fatal error. -/
theorem status_success_and_fatal :
    (allErrorTables.all (fun nt =>
      (NewError (some nt.2) 200 == none) &&
      (NewError (some nt.2) 201 == none) &&
      (NewError (some nt.2) 500 == some ("Fatal Error 500.")))) = true := by
  decide

/-- Claim C6 (amended): status 409 is tabulated only for DelNode, where it
yields its error; status 204 is tabulated only for GetProperty and
GetProperties, where it yields an error; no other operation, traversal
included, tabulates either code. -/
theorem tables_409_204_amended :
    (allErrorTables.all (fun nt =>
      (mapLookup nt.2 409).isSome == (nt.1 == "DelNode"))) = true ∧
    (allErrorTables.all (fun nt =>
      (mapLookup nt.2 204).isSome == (nt.1 == "GetProperty" || nt.1 == "GetProperties"))) = true ∧
    NewError (some errorList_DelNode) 409 =
      some ("Unable to delete node. May still have relationships.") ∧
    NewError (some errorList_GetProperty) 204 = some ("No properties found.") ∧
    NewError (some errorList_GetProperties) 204 = some ("No properties found.") := by
  refine ⟨by decide, by decide, by decide, by decide, by decide⟩

/-- Claim C6, counterexample: the claim asserts that for traversal status 204
yields an error, but the Traverse error table has no 204 entry and the
classifier returns success there. -/
theorem traverse_204_cex :
    NewError (some errorList_Traverse) 204 = none ∧
    mapLookup errorList_Traverse 204 = none ∧
    NewError (some errorList_TraversePath) 204 = none := by
  refine ⟨by decide, by decide, by decide⟩

/-- Lookup is unchanged by dropping 500-keyed entries when the looked-up code
is not 500. -/
theorem mapLookup_filter_500 (t : List (Nat × String)) (code : Nat) (h : code ≠ 500) :
    mapLookup (t.filter (fun p => p.1 != 500)) code = mapLookup t code := by
  induction t with
  | nil => rfl
  | cons p rest ih =>
    by_cases h5 : p.1 = 500
    · unfold mapLookup
      rw [List.filter_cons_of_neg (by simp [h5])]
      rw [List.find?_cons_of_neg _ (by simp [h5]; omega)]
      exact ih
    · unfold mapLookup
      rw [List.filter_cons_of_pos (by simp [h5])]
      by_cases hc : p.1 = code
      · rw [List.find?_cons_of_pos _ (by simp [hc]), List.find?_cons_of_pos _ (by simp [hc])]
      · rw [List.find?_cons_of_neg _ (by simp [hc]), List.find?_cons_of_neg _ (by simp [hc])]
        exact ih

/-- Claim C5 (amended): for every operation tag and every status code other
than 500 that has no entry in the tag's error table, the classifier returns
success (nil); there is no generic unknown-code fallback and no UnknownStatus
error in the code. -/
theorem status_untabulated_amended (nm : String) (t : List (Nat × String)) (code : Nat)
    (hmem : (nm, t) ∈ allErrorTables) (h500 : code ≠ 500)
    (hcode : mapLookup t code = none) :
    NewError (some t) code = none := by
  have hc : ((500 : Nat) == code) = false := by simp; omega
  simp only [NewError, Error.check, mapInsert, mapLookup, List.find?, hc]
  have := mapLookup_filter_500 t code h500
  simp only [mapLookup] at this hcode
  rw [this, hcode]

/-- Claim C5, witness: untabulated code 400 for the GetNode table classifies
as success. -/
theorem status_untabulated_amended_witness :
    NewError (some errorList_GetNode) 400 = none :=
  status_untabulated_amended ("GetNode") errorList_GetNode 400 (by decide) (by decide) (by decide)

/-- Claim C5, counterexample: 404 has no entry in the CreateNode table and is a
"recognized bad code", yet the classifier returns success, not the claimed
generic error. -/
theorem status_untabulated_cex :
    NewError (some errorList_CreateNode) 404 = none := by
  decide

/-- Claim C1 (amended): for every input that parses as a single JSON object
and whose record decodes successfully, `unmarshal` returns a result set
containing exactly one record, at index 0, and nothing else. -/
theorem unmarshal_single_object_amended (fs : List (String × JValue)) (node : NeoTemplate)
    (h : unmarshalNode fs = Except.ok node) :
    unmarshal (ParsedInput.value (JValue.obj fs)) = Except.ok [node] := by
  simp [unmarshal, goUnmarshalMap, h]

/-- Claim C1, witness: a one-field object decodes to the singleton result set. -/
theorem unmarshal_single_object_amended_witness :
    unmarshal (ParsedInput.value (JValue.obj [("self", JValue.str ("a/3"))])) =
      Except.ok [{ ID := 3, Self := "a/3" }] :=
  unmarshal_single_object_amended _ _ rfl

/-- Claim C1, counterexample: the input parses as a single JSON object, yet
`unmarshal` returns an error (the self id does not parse), not a one-record
result set as the claim states. -/
theorem unmarshal_single_object_cex :
    isOkE (unmarshal (ParsedInput.value (JValue.obj [("self", JValue.str ("x"))]))) = false := rfl

/-- Successful set decoding gives one record per object, in order. -/
theorem unmarshalSetLoop_ok_spec :
    ∀ (fss : List (List (String × JValue))) (nodes : List NeoTemplate),
      unmarshalSetLoop fss = Except.ok nodes →
      nodes.length = fss.length ∧
      ∀ i, nodes.get? i = (fss.get? i).bind (fun fs => (unmarshalNode fs).toOption) := by
  intro fss
  induction fss with
  | nil =>
    intro nodes h
    simp [unmarshalSetLoop] at h
    subst h
    simp
  | cons fs rest ih =>
    intro nodes h
    simp only [unmarshalSetLoop] at h
    cases hn : unmarshalNode fs with
    | error e => rw [hn] at h; exact absurd h (by simp)
    | ok d =>
      rw [hn] at h
      cases hr : unmarshalSetLoop rest with
      | error e => rw [hr] at h; exact absurd h (by simp)
      | ok ds =>
        rw [hr] at h
        have hnodes : nodes = d :: ds := by
          cases h; rfl
        subst hnodes
        obtain ⟨hlen, hget⟩ := ih ds hr
        refine ⟨by simp [hlen], ?_⟩
        intro i
        cases i with
        | zero => simp [hn, Except.toOption]
        | succ j => simpa using hget j

/-- Mapping `JValue.obj` over a list of field lists round-trips through the
array-of-maps unmarshal. -/
theorem goElemMaps_obj (fss : List (List (String × JValue))) :
    goElemMaps (fss.map JValue.obj) = some fss := by
  induction fss with
  | nil => rfl
  | cons fs rest ih => simp [goElemMaps, goElemMap, ih]

/-- Claim C2 (amended): an input that parses as a JSON array of N objects does
not parse as a single object, and, when every element decodes successfully,
`unmarshal` (trying the array shape after the object shape fails) returns
exactly N records at indices 0..N-1 in array order; when neither parse
succeeds, `unmarshal` returns an error and no result set. -/
theorem unmarshal_array_amended (fss : List (List (String × JValue))) (nodes : List NeoTemplate)
    (h : unmarshalSetLoop fss = Except.ok nodes) :
    goUnmarshalMap (ParsedInput.value (JValue.arr (fss.map JValue.obj))) = none ∧
    unmarshal (ParsedInput.value (JValue.arr (fss.map JValue.obj))) = Except.ok nodes ∧
    nodes.length = fss.length ∧
    (∀ i, nodes.get? i = (fss.get? i).bind (fun fs => (unmarshalNode fs).toOption)) ∧
    (∀ inp, goUnmarshalMap inp = none → goUnmarshalMapArray inp = none →
      isOkE (unmarshal inp) = false) := by
  obtain ⟨hlen, hget⟩ := unmarshalSetLoop_ok_spec fss nodes h
  refine ⟨rfl, ?_, hlen, hget, ?_⟩
  · simp [unmarshal, goUnmarshalMap, goUnmarshalMapArray, goElemMaps_obj, h]
  · intro inp h1 h2
    simp [unmarshal, h1, h2, isOkE]

/-- Claim C2, witness: a two-object array decodes to two records in order. -/
theorem unmarshal_array_amended_witness :
    unmarshal (ParsedInput.value (JValue.arr
        [JValue.obj [("self", JValue.str ("n/1"))], JValue.obj [("type", JValue.str ("KNOWS"))]])) =
      Except.ok [{ ID := 1, Self := "n/1" }, { RelType := "KNOWS" }] :=
  (unmarshal_array_amended [[("self", JValue.str ("n/1"))], [("type", JValue.str ("KNOWS"))]]
    [{ ID := 1, Self := "n/1" }, { RelType := "KNOWS" }] rfl).2.1

/-- Claim C2, counterexample: the input parses as a JSON array of one object,
yet `unmarshal` errors out (bad self id) instead of returning the one-entry
result set the claim states. -/
theorem unmarshal_array_cex :
    isOkE (unmarshal (ParsedInput.value (JValue.arr [JValue.obj [("self", JValue.str ("x"))]]))) = false := rfl

/-- A non-`self` string key always decodes, and leaves `ID` and `Self`
untouched. -/
theorem applyStringField_not_self (node : NeoTemplate) (k s : String) (hk : k ≠ "self") :
    ∃ node2, applyStringField node k s = Except.ok node2 ∧
      node2.ID = node.ID ∧ node2.Self = node.Self := by
  unfold applyStringField
  rw [if_neg hk]
  by_cases h1 : k = "traverse"
  · rw [if_pos h1]; exact ⟨_, rfl, rfl, rfl⟩
  rw [if_neg h1]
  by_cases h2 : k = "property"
  · rw [if_pos h2]; exact ⟨_, rfl, rfl, rfl⟩
  rw [if_neg h2]
  by_cases h3 : k = "properties"
  · rw [if_pos h3]; exact ⟨_, rfl, rfl, rfl⟩
  rw [if_neg h3]
  by_cases h4 : k = "outgoing_relationships"
  · rw [if_pos h4]; exact ⟨_, rfl, rfl, rfl⟩
  rw [if_neg h4]
  by_cases h5 : k = "incoming_relationships"
  · rw [if_pos h5]; exact ⟨_, rfl, rfl, rfl⟩
  rw [if_neg h5]
  by_cases h6 : k = "all_relationships"
  · rw [if_pos h6]; exact ⟨_, rfl, rfl, rfl⟩
  rw [if_neg h6]
  by_cases h7 : k = "create_relationship"
  · rw [if_pos h7]; exact ⟨_, rfl, rfl, rfl⟩
  rw [if_neg h7]
  by_cases h8 : k = "start"
  · rw [if_pos h8]; exact ⟨_, rfl, rfl, rfl⟩
  rw [if_neg h8]
  by_cases h9 : k = "end"
  · rw [if_pos h9]; exact ⟨_, rfl, rfl, rfl⟩
  rw [if_neg h9]
  by_cases h10 : k = "type"
  · rw [if_pos h10]; exact ⟨_, rfl, rfl, rfl⟩
  rw [if_neg h10]
  by_cases h11 : k = "length"
  · rw [if_pos h11]; exact ⟨_, rfl, rfl, rfl⟩
  rw [if_neg h11]
  by_cases h12 : k = "indexed"
  · rw [if_pos h12]; exact ⟨_, rfl, rfl, rfl⟩
  rw [if_neg h12]
  exact ⟨node, rfl, rfl, rfl⟩

/-- Without a `"self"` key the decode loop cannot fail and never changes the
`ID` and `Self` fields. -/
theorem unmarshalNodeLoop_no_self :
    ∀ (fields : List (String × JValue)) (node : NeoTemplate),
      "self" ∉ fields.map Prod.fst →
      ∃ node2, unmarshalNodeLoop node fields = Except.ok node2 ∧
        node2.ID = node.ID ∧ node2.Self = node.Self := by
  intro fields
  induction fields with
  | nil => exact fun node _ => ⟨node, rfl, rfl, rfl⟩
  | cons kv rest ih =>
    intro node hmem
    obtain ⟨k, v⟩ := kv
    simp only [List.map_cons, List.mem_cons, not_or] at hmem
    obtain ⟨hk, hrest⟩ := hmem
    match v with
    | JValue.obj fs =>
      obtain ⟨node3, hloop, hid3, hself3⟩ :=
        ih (if k = "data" then { node with Data := fs }
            else if k = "extensions" then { node with Extensions := fs }
            else node) hrest
      refine ⟨node3, ?_, ?_, ?_⟩
      · simpa only [unmarshalNodeLoop] using hloop
      · rw [hid3]; split <;> first | rfl | (split <;> rfl)
      · rw [hself3]; split <;> first | rfl | (split <;> rfl)
    | JValue.arr xs =>
      obtain ⟨node3, hloop, hid3, hself3⟩ :=
        ih (if k = "nodes" then { node with Nodes := xs }
            else if k = "relationships" then { node with TRelationships := xs }
            else node) hrest
      refine ⟨node3, ?_, ?_, ?_⟩
      · simpa only [unmarshalNodeLoop] using hloop
      · rw [hid3]; split <;> first | rfl | (split <;> rfl)
      · rw [hself3]; split <;> first | rfl | (split <;> rfl)
    | JValue.num n => exact ih node hrest
    | JValue.bool b => exact ih node hrest
    | JValue.null => exact ih node hrest
    | JValue.str s =>
      obtain ⟨node2, happ, hid, hself⟩ :=
        applyStringField_not_self node k s (fun h => hk h.symm)
      obtain ⟨node3, hloop, hid3, hself3⟩ := ih node2 hrest
      refine ⟨node3, ?_, by rw [hid3, hid], by rw [hself3, hself]⟩
      simp only [unmarshalNodeLoop, happ]
      exact hloop

/-- Core of claim C3: with a `"self"` key mapped to string `s` among distinct
keys, the decode loop yields a record whose `ID` is the parsed last
`/`-segment of `s`, and fails outright when that segment does not parse. -/
theorem unmarshalNodeLoop_self :
    ∀ (fields : List (String × JValue)) (node : NeoTemplate) (s : String),
      ("self", JValue.str s) ∈ fields →
      (fields.map Prod.fst).Nodup →
      (∀ id, parseUintGo ((splitSlash s).getLastD ("")) = some id →
        ∃ node2, unmarshalNodeLoop node fields = Except.ok node2 ∧
          node2.ID = id ∧ node2.Self = s) ∧
      (parseUintGo ((splitSlash s).getLastD ("")) = none →
        isOkE (unmarshalNodeLoop node fields) = false) := by
  intro fields
  induction fields with
  | nil => intro node s hmem; exact absurd hmem (by simp)
  | cons kv rest ih =>
    intro node s hmem hnodup
    obtain ⟨k, v⟩ := kv
    simp only [List.map_cons, List.nodup_cons] at hnodup
    obtain ⟨hknotin, hnodup'⟩ := hnodup
    rcases List.mem_cons.mp hmem with hhead | htail
    · -- the head is the ("self", str s) pair
      obtain ⟨hk, hv⟩ : k = "self" ∧ v = JValue.str s := by
        have h1 := congrArg Prod.fst hhead
        have h2 := congrArg Prod.snd hhead
        exact ⟨h1.symm, h2.symm⟩
      subst hk; subst hv
      have hrestno : "self" ∉ rest.map Prod.fst := hknotin
      constructor
      · intro id hid
        have happ : applyStringField node ("self") s =
            Except.ok { node with Self := s, ID := id } := by
          unfold applyStringField
          rw [if_pos rfl]
          simp only [hid]
        obtain ⟨node3, hloop, hid3, hself3⟩ :=
          unmarshalNodeLoop_no_self rest { node with Self := s, ID := id } hrestno
        refine ⟨node3, ?_, by rw [hid3], by rw [hself3]⟩
        simp only [unmarshalNodeLoop, happ]
        exact hloop
      · intro hid
        have happ : applyStringField node ("self") s =
            Except.error ("invalid syntax in self id") := by
          unfold applyStringField
          rw [if_pos rfl]
          simp only [hid]
        simp [unmarshalNodeLoop, happ, isOkE]
    · -- the ("self", str s) pair is further down; the head key differs
      have hkne : k ≠ "self" := by
        intro hk
        subst hk
        exact hknotin (List.mem_map.mpr ⟨_, htail, rfl⟩)
      match v with
      | JValue.obj fs => exact ih _ s htail hnodup'
      | JValue.arr xs => exact ih _ s htail hnodup'
      | JValue.num n => exact ih _ s htail hnodup'
      | JValue.bool b => exact ih _ s htail hnodup'
      | JValue.null => exact ih _ s htail hnodup'
      | JValue.str s' =>
        obtain ⟨node2, happ, _, _⟩ := applyStringField_not_self node k s' hkne
        have hred : unmarshalNodeLoop node ((k, JValue.str s') :: rest) =
            unmarshalNodeLoop node2 rest := by
          simp only [unmarshalNodeLoop, happ]
        rw [hred]
        exact ih node2 s htail hnodup'

/-- Claim C3: when a decoded object maps `"self"` to a string, the record's
`ID` is the last `/`-segment of that string parsed as a non-negative integer,
and a non-parsing final segment makes the whole decode (`unmarshalNode`, and
through it `unmarshal`) fail rather than skip the record. -/
theorem unmarshalNode_self_id (fields : List (String × JValue)) (s : String)
    (hmem : ("self", JValue.str s) ∈ fields)
    (hnodup : (fields.map Prod.fst).Nodup) :
    (∀ id, parseUintGo ((splitSlash s).getLastD ("")) = some id →
      (unmarshalNode fields).toOption.map NeoTemplate.ID = some id ∧
      (unmarshalNode fields).toOption.map NeoTemplate.Self = some s) ∧
    (parseUintGo ((splitSlash s).getLastD ("")) = none →
      isOkE (unmarshalNode fields) = false ∧
      isOkE (unmarshal (ParsedInput.value (JValue.obj fields))) = false) := by
  obtain ⟨hsome, hnone⟩ := unmarshalNodeLoop_self fields {} s hmem hnodup
  constructor
  · intro id hid
    obtain ⟨node2, hloop, hid2, hself2⟩ := hsome id hid
    unfold unmarshalNode
    rw [hloop]
    simp [Except.toOption, hid2, hself2]
  · intro hid
    have hfail := hnone hid
    unfold unmarshalNode at *
    refine ⟨hfail, ?_⟩
    cases hcase : unmarshalNodeLoop {} fields with
    | ok node2 => rw [hcase] at hfail; simp [isOkE] at hfail
    | error e =>
      simp [unmarshal, goUnmarshalMap, unmarshalNode, hcase, isOkE]

/-- Claim C3, witness: `"self": "a/b/12"` yields `ID = 12`. -/
theorem unmarshalNode_self_id_witness :
    (unmarshalNode [("self", JValue.str ("a/b/12"))]).toOption.map NeoTemplate.ID = some 12 :=
  ((unmarshalNode_self_id [("self", JValue.str ("a/b/12"))] ("a/b/12")
    (by simp) (by simp)).1 12 rfl).1

/-- If no character satisfies the predicate, the index search fails. -/
theorem findIdxA_none_of (p : Char → Bool) :
    ∀ l : List Char, (∀ c ∈ l, p c = false) → findIdxA p l = none := by
  intro l
  induction l with
  | nil => intro _; rfl
  | cons c rest ih =>
    intro h
    have hc := h c (by simp)
    have hrest : findIdxA p rest = none :=
      ih (fun c2 hc2 => h c2 (List.mem_cons_of_mem _ hc2))
    simp [findIdxA, hc, hrest]

/-- A successful index search points at a character satisfying the predicate. -/
theorem findIdxA_some_drop (p : Char → Bool) :
    ∀ (l : List Char) (i : Nat), findIdxA p l = some i →
      ∃ c rest, l.drop i = c :: rest ∧ p c = true := by
  intro l
  induction l with
  | nil => intro i h; exact absurd h (by simp [findIdxA])
  | cons c rest ih =>
    intro i h
    by_cases hc : p c
    · simp [findIdxA, hc] at h
      subst h
      exact ⟨c, rest, rfl, hc⟩
    · simp [findIdxA, hc] at h
      obtain ⟨j, hj, hji⟩ := h
      subst hji
      obtain ⟨c2, rest2, hd, hp⟩ := ih j hj
      exact ⟨c2, rest2, by simpa using hd, hp⟩

/-- Every reserved character has an escape in the switch. -/
theorem escCode_of_mem (c : Char) (h : escapedCharsList.contains c = true) :
    (escCode c).isSome = true := by
  have hm : c ∈ escapedCharsList := by simpa using h
  fin_cases hm <;> rfl

/-- One unfolding of the escape loop in the stepping case. -/
theorem escapeLoop_step (buf s : List Char) (i : Nat) (c : Char) (rest : List Char)
    (esc : String) (hidx : indexAny s escapedCharsList = some i)
    (hdrop : s.drop i = c :: rest) (hesc : escCode c = some esc) :
    escapeLoop buf s = escapeLoop (buf ++ s.take i ++ esc.data) rest := by
  rw [escapeLoop.eq_def, hidx]
  split
  · rename_i heq
    exact absurd heq (by simp)
  · rename_i x j heq
    injection heq with hj
    subst hj
    split
    · rename_i heq2
      rw [hdrop] at heq2
      exact absurd heq2 (by simp)
    · rename_i c2 rest2 heq2
      rw [hdrop] at heq2
      obtain ⟨rfl, rfl⟩ : c = c2 ∧ rest = rest2 := by
        injection heq2 with h1 h2
        exact ⟨h1, h2⟩
      rw [hesc]

/-- The escape loop always succeeds: the reserved character it stops at always
has a defined escape, so the fatal default branch is unreachable. -/
theorem escapeLoop_isSome : ∀ (buf s : List Char), (escapeLoop buf s).isSome = true := by
  intro buf s
  induction buf, s using escapeLoop.induct with
  | case1 buf s hidx =>
    rw [escapeLoop.eq_def, hidx]
    rfl
  | case2 buf s i hidx hdrop =>
    obtain ⟨c, rest, hd, hp⟩ := findIdxA_some_drop _ s i hidx
    rw [hdrop] at hd
    exact absurd hd (by simp)
  | case3 buf s i hidx c rest hdrop hesc =>
    obtain ⟨c2, rest2, hd, hp⟩ := findIdxA_some_drop _ s i hidx
    rw [hdrop] at hd
    obtain ⟨rfl, rfl⟩ : c = c2 ∧ rest = rest2 := by
      injection hd with h1 h2
      exact ⟨h1, h2⟩
    have := escCode_of_mem c hp
    rw [hesc] at this
    simp at this
  | case4 buf s i hidx c rest hdrop esc hesc ih =>
    rw [escapeLoop_step buf s i c rest esc hidx hdrop hesc]
    exact ih

/-- Claim C8: every character of the reserved set has a mapping in the escape
switch, the fatal default branch is unreachable, and `EscapeString` succeeds on
every input string. -/
theorem escape_total :
    (∀ c ∈ escapedCharsList, (escCode c).isSome = true) ∧
    (∀ s : String, (EscapeString s).isSome = true) := by
  constructor
  · intro c hc
    exact escCode_of_mem c (by simpa using hc)
  · intro s
    unfold EscapeString
    by_cases hidx : (indexAny s.data escapedCharsList).isNone
    · rw [if_pos hidx]; rfl
    · rw [if_neg hidx]
      have := escapeLoop_isSome [] s.data
      cases hcase : escapeLoop [] s.data with
      | none => rw [hcase] at this; simp at this
      | some l => simp [hcase]

/-- Claim C7: a string containing none of the reserved characters is returned
unchanged by `EscapeString`, and escaping it again still returns it unchanged
(idempotence on clean strings). -/
theorem escapeString_identity (s : String)
    (h : ∀ c ∈ s.data, escapedCharsList.contains c = false) :
    EscapeString s = some s ∧ (EscapeString s).bind EscapeString = some s := by
  have hidx : indexAny s.data escapedCharsList = none := findIdxA_none_of _ s.data h
  have h1 : EscapeString s = some s := by
    unfold EscapeString
    rw [if_pos (by rw [hidx]; rfl)]
  exact ⟨h1, by rw [h1]; exact h1⟩

/-- Claim C7, witness: a clean string passes through unchanged, twice. -/
theorem escapeString_identity_witness :
    EscapeString ("abc") = some ("abc") ∧
    (EscapeString ("abc")).bind EscapeString = some ("abc") :=
  escapeString_identity ("abc") (by decide)

/-- Claim C9: calling DelRelationship with no identifiers issues no HTTP
request, yet still classifies the status code already stored on the client:
404 gives "Relationship not found.", 500 gives the fatal error, anything else
gives success. -/
theorem delRelationship_empty (oracle : Oracle) (st0 : Neo4j) :
    (DelRelationship oracle st0 []).2.1 = ([] : List Req) ∧
    (DelRelationship oracle st0 []).2.2 =
      (if st0.StatusCode = 404 then some ("Relationship not found.")
       else if st0.StatusCode = 500 then some ("Fatal Error 500.")
       else none) := by
  refine ⟨rfl, ?_⟩
  have hred : (DelRelationship oracle st0 []).2.2 =
      NewError (some errorList_DelRelationship) st0.StatusCode := rfl
  rw [hred]
  by_cases h4 : st0.StatusCode = 404
  · rw [h4]; decide
  · by_cases h5 : st0.StatusCode = 500
    · rw [h5]; decide
    · have hc5 : ((500 : Nat) == st0.StatusCode) = false := by simp; omega
      have hc4 : ((404 : Nat) == st0.StatusCode) = false := by simp; omega
      simp [NewError, Error.check, mapInsert, mapLookup, errorList_DelRelationship,
        List.filter, List.find?, hc5, hc4, h4, h5]

theorem normalizeVerb_put : normalizeVerb ("put") = "put" := rfl

/-- The merge-mode loop sends exactly one PUT per key: the key trimmed into
the URL, the double-quoted value as the body. -/
theorem setPropLoop_spec (oracle : Oracle) (P : String)
    (hok : ∀ u d, (oracle ("put") u d).isSome = true) :
    ∀ (items : List (String × String)) (st : Neo4j), st.Method = "put" →
      (setPropLoop oracle P st items).2.1 =
        items.map (fun kv => (("put", P ++ "/" ++ trimSpace kv.1, quoteGo kv.2) : Req)) ∧
      (setPropLoop oracle P st items).1.Method = "put" ∧
      (setPropLoop oracle P st items).2.2 = none := by
  intro items
  induction items with
  | nil => intro st hm; exact ⟨rfl, hm, rfl⟩
  | cons kv rest ih =>
    intro st hm
    obtain ⟨k, v⟩ := kv
    have hurl : ¬ ((P ++ "/" ++ trimSpace k).length < 1) := by
      intro hcon
      rw [String.length_append, String.length_append] at hcon
      have h1 : "/".length = 1 := rfl
      omega
    obtain ⟨pr, hpr⟩ := Option.isSome_iff_exists.mp
      (hok (P ++ "/" ++ trimSpace k) (quoteGo v))
    obtain ⟨body, status⟩ := pr
    have hsend : send oracle st (P ++ "/" ++ trimSpace k) (quoteGo v) =
        ({ st with StatusCode := status },
         [("put", P ++ "/" ++ trimSpace k, quoteGo v)], Except.ok body) := by
      simp only [send, hm, normalizeVerb_put, if_neg hurl, hpr]
    have hm1 : ({ st with StatusCode := status } : Neo4j).Method = "put" := hm
    obtain ⟨hr, hmth, hres⟩ := ih { st with StatusCode := status } hm1
    simp only [setPropLoop, hsend]
    cases hloop : setPropLoop oracle P { st with StatusCode := status } rest with
    | mk st2 rest2 =>
      rw [hloop] at hr hmth hres
      refine ⟨?_, ?_, ?_⟩
      · simpa using hr
      · simpa using hmth
      · simpa using hres

/-- Claim C10: in merge mode SetProperty and CreateProperty issue one PUT per
property key, trimming white space from the key in the URL and double-quoting
the value as the body; in replace mode they issue a single PUT whose body is
the serialized property map with the keys left exactly as given. -/
theorem property_update_requests (oracle : Oracle) (st0 : Neo4j) (id : Nat)
    (data : List (String × String)) (node : NeoTemplate) (st1 : Neo4j) (reqs1 : List Req)
    (hget : GetNode oracle st0 id = (st1, reqs1, (some node, none)))
    (hok : ∀ u d, (oracle ("put") u d).isSome = true)
    (hp : 1 ≤ node.Properties.length) :
    (SetProperty oracle st0 id data false).2.1 =
      reqs1 ++ data.map (fun kv => (("put", node.Properties ++ "/" ++ trimSpace kv.1, quoteGo kv.2) : Req)) ∧
    (SetProperty oracle st0 id data true).2.1 =
      reqs1 ++ [(("put", node.Properties, marshalStringMap data) : Req)] ∧
    (CreateProperty oracle st0 id data false).2.1 =
      reqs1 ++ data.map (fun kv => (("put", node.Properties ++ "/" ++ trimSpace kv.1, quoteGo kv.2) : Req)) ∧
    (CreateProperty oracle st0 id data true).2.1 =
      reqs1 ++ [(("put", node.Properties, marshalStringMap data) : Req)] ∧
    (∀ v : String, ∃ w : String, quoteGo v = "\"" ++ w ++ "\"") := by
  have hmeth : ({ st1 with Method := "put" } : Neo4j).Method = "put" := rfl
  have hcond : ¬ (node.Properties.length < 1) := by omega
  -- the single replace-mode request
  obtain ⟨pr, hpr⟩ := Option.isSome_iff_exists.mp (hok node.Properties (marshalStringMap data))
  obtain ⟨body, status⟩ := pr
  have hsend : send oracle { st1 with Method := "put" } node.Properties (marshalStringMap data) =
      ({ st1 with Method := "put", StatusCode := status },
       [("put", node.Properties, marshalStringMap data)], Except.ok body) := by
    simp only [send, hmeth, normalizeVerb_put]
    rw [if_neg hcond, hpr]
  -- the merge-mode loop
  obtain ⟨hr, hmth, hres⟩ :=
    setPropLoop_spec oracle node.Properties hok data { st1 with Method := "put" } hmeth
  refine ⟨?_, ?_, ?_, ?_, fun v => ⟨_, rfl⟩⟩
  · unfold SetProperty
    rw [hget]
    simp only [Bool.false_eq_true, if_false]
    cases hloop : setPropLoop oracle node.Properties { st1 with Method := "put" } data with
    | mk st2 pr2 =>
      obtain ⟨reqs2, res⟩ := pr2
      rw [hloop] at hr hres
      simp only at hr hres
      subst hres
      simp [hr]
  · unfold SetProperty
    rw [hget]
    simp only [if_true]
    rw [hsend]
  · unfold CreateProperty
    rw [hget]
    simp only [Bool.false_eq_true, if_false]
    cases hloop : setPropLoop oracle node.Properties { st1 with Method := "put" } data with
    | mk st2 pr2 =>
      obtain ⟨reqs2, res⟩ := pr2
      rw [hloop] at hr hres
      simp only at hr hres
      subst hres
      simp [hr]
  · unfold CreateProperty
    rw [hget]
    simp only [if_true]
    rw [hsend]

/-- Claim C10, witness: one GET to resolve the node, then one PUT per key with
the key trimmed in the URL ("a " becomes "a") and the value double-quoted. -/
theorem property_update_requests_witness :
    (SetProperty witOracle witClient 5 [("a ", "v")] false).2.1 =
      [("get", "u/node/5", ""), ("put", "p/a", "\"v\"")] := by
  have h := (property_update_requests witOracle witClient 5 [("a ", "v")] witNode
    { Method := "get", StatusCode := 200, URL := "u" } [("get", "u/node/5", "")]
    rfl (fun u d => rfl) (by decide)).1
  exact h.trans rfl
